import Mathlib

/-!
Formal model of `src/encode/json.rs` from log4rs: a JSON log-event encoder.

The Rust source serializes a transient `Message` view (nine fields, fixed
order) with `serde_json` into a byte sink, appends a newline, and renders the
thread-local diagnostic context (`log_mdc`) through the `Mdc` adapter, which
tracks the first serialization error inside the callback-driven iteration.

The embedding works over `List Char` as the byte/character output; all inputs
the Rust code reads from ambient state (wall-clock time, current thread name,
the thread's diagnostic context) are explicit parameters here.
-/

namespace JsonEncoderModel

/-- Decimal digit characters, as written by both serde_json's integer
formatting (itoa) and chrono's zero-padded numeric fields. Inputs are always
reduced mod 10 at call sites; the catch-all keeps the function total. -/
def decChar (n : Nat) : Char :=
  match n with
  | 0 => '0' | 1 => '1' | 2 => '2' | 3 => '3' | 4 => '4'
  | 5 => '5' | 6 => '6' | 7 => '7' | 8 => '8' | _ => '9'

/-- Lowercase hex digits, as used by serde_json's `\u00XX` escapes. -/
def hexChar (n : Nat) : Char :=
  match n with
  | 0 => '0' | 1 => '1' | 2 => '2' | 3 => '3' | 4 => '4'
  | 5 => '5' | 6 => '6' | 7 => '7' | 8 => '8' | 9 => '9'
  | 10 => 'a' | 11 => 'b' | 12 => 'c' | 13 => 'd' | 14 => 'e' | _ => 'f'

/-- JSON escaping of one character, as performed by serde_json's string
serializer: `"` and `\` get a backslash escape, control characters below
0x20 get `\b`, `\t`, `\n`, `\f`, `\r` or a `\u00XX` escape, and every other
character is written as is. -/
def escapeChar (c : Char) : List Char :=
  if c = '"' then ['\\', '"']
  else if c = '\\' then ['\\', '\\']
  else if c.toNat = 0x08 then ['\\', 'b']
  else if c.toNat = 0x09 then ['\\', 't']
  else if c.toNat = 0x0a then ['\\', 'n']
  else if c.toNat = 0x0c then ['\\', 'f']
  else if c.toNat = 0x0d then ['\\', 'r']
  else if c.toNat < 0x20 then
    ['\\', 'u', '0', '0', hexChar (c.toNat / 16), hexChar (c.toNat % 16)]
  else [c]

/-- JSON escaping of a character sequence. -/
def escapeList : List Char → List Char
  | [] => []
  | c :: rest => escapeChar c ++ escapeList rest

/-- A JSON string token: opening quote, escaped content, closing quote, as
serde_json writes `&str` values (and `collect_str` output). -/
def jsonStrL (content : List Char) : List Char :=
  '"' :: escapeList content ++ ['"']

/-- JSON string token for a Lean `String`. -/
def jsonStr (s : String) : List Char :=
  jsonStrL s.toList

/-- Decimal rendering with explicit recursion fuel; the fuel only needs to
cover the digit count, and each step strips the last digit. -/
def decDigitsAux : Nat → Nat → List Char
  | 0, _ => []
  | fuel + 1, n =>
      if n < 10 then [decChar n]
      else decDigitsAux fuel (n / 10) ++ [decChar (n % 10)]

/-- Decimal rendering of an unsigned integer with no leading zeros, as
serde_json writes the `u32` field `line`: `n + 1` units of fuel always
suffice since a number has at most `n + 1` digits. -/
def decDigits (n : Nat) : List Char :=
  decDigitsAux (n + 1) n

/-- Zero-padded fixed-width decimal rendering, most significant digit first,
as chrono writes the numeric fields of an RFC3339 timestamp. -/
def padDigits : Nat → Nat → List Char
  | 0, _ => []
  | k + 1, n => padDigits k (n / 10) ++ [decChar (n % 10)]

/-- Fractional-second rendering of chrono's `Fixed::Nanosecond` item (used
inside `Fixed::RFC3339`): nothing when the nanosecond count is zero, else a
dot followed by 3, 6 or 9 digits depending on the trailing zeros. -/
def fracDigits (n : Nat) : List Char :=
  if n = 0 then []
  else if n % 1000000 = 0 then '.' :: padDigits 3 (n / 1000000)
  else if n % 1000 = 0 then '.' :: padDigits 6 (n / 1000)
  else '.' :: padDigits 9 n

/-- A local timestamp as the encoder sees it: the civil fields of a
`DateTime<Local>` together with its UTC offset (sign, hours, minutes). -/
structure Tm where
  year : Nat
  month : Nat
  day : Nat
  hour : Nat
  minute : Nat
  second : Nat
  nanos : Nat
  offNeg : Bool
  offH : Nat
  offM : Nat
  deriving DecidableEq, Repr

/-- A timestamp whose fields are in the ranges chrono guarantees for a
`DateTime<Local>` with a four-digit year. -/
def ValidTm (t : Tm) : Prop :=
  t.year ≤ 9999 ∧ 1 ≤ t.month ∧ t.month ≤ 12 ∧ 1 ≤ t.day ∧ t.day ≤ 31 ∧
    t.hour < 24 ∧ t.minute < 60 ∧ t.second < 60 ∧ t.nanos < 1000000000 ∧
    t.offH < 24 ∧ t.offM < 60

instance (t : Tm) : Decidable (ValidTm t) := by
  unfold ValidTm
  infer_instance

/-- RFC3339 rendering of a timestamp, as chrono's `Fixed::RFC3339` formatting
item produces it via `time.format_with_items(Some(Item::Fixed(Fixed::RFC3339)))`
in `encode_inner`: `YYYY-MM-DDTHH:MM:SS`, optional fraction, then a numeric
offset with a colon. -/
def rfc3339Format (t : Tm) : List Char :=
  padDigits 4 t.year ++ ['-'] ++ padDigits 2 t.month ++ ['-'] ++ padDigits 2 t.day
    ++ ['T'] ++ padDigits 2 t.hour ++ [':'] ++ padDigits 2 t.minute
    ++ [':'] ++ padDigits 2 t.second ++ fracDigits t.nanos
    ++ [if t.offNeg then '-' else '+'] ++ padDigits 2 t.offH ++ [':'] ++ padDigits 2 t.offM

/-- A compact JSON value, the specification-side description of the encoder's
output shape. -/
inductive Json where
  | null : Json
  | str (s : String) : Json
  | num (n : Nat) : Json
  | obj (fields : List (String × Json)) : Json
  deriving Repr

mutual

/-- Compact rendering of a JSON value: no insignificant whitespace. -/
def Json.render : Json → List Char
  | .null => ['n', 'u', 'l', 'l']
  | .str s => jsonStr s
  | .num n => decDigits n
  | .obj fields => '{' :: Json.renderFields fields ++ ['}']

/-- Compact rendering of an object's fields, comma separated. -/
def Json.renderFields : List (String × Json) → List Char
  | [] => []
  | [(k, v)] => jsonStr k ++ ':' :: Json.render v
  | (k, v) :: rest => jsonStr k ++ ':' :: Json.render v ++ ',' :: Json.renderFields rest

end

section MdcAdapter

variable {σ ε : Type}

/-- One diagnostic-context pair's write attempt inside `Mdc::serialize`'s
callback body: `map.serialize_key(k).and_then(|()| map.serialize_value(v))`
over an abstract stateful map serializer whose operations return a new state
and possibly an error. -/
def mdcStep (fk fv : σ → String → σ × Option ε) (s : σ) (kv : String × String) :
    σ × Option ε :=
  match fk s kv.1 with
  | (s1, some e) => (s1, some e)
  | (s1, none) => fv s1 kv.2

/-- The `log_mdc::iter` loop of `Mdc::serialize`: the callback runs once per
pair, in order, over the whole context; it attempts the writes only while the
tracked error slot `err` is still `Ok(())`, and records the first error. -/
def mdcLoop (fk fv : σ → String → σ × Option ε) :
    List (String × String) → σ → Option ε → σ × Option ε
  | [], s, err => (s, err)
  | kv :: rest, s, none =>
      match mdcStep fk fv s kv with
      | (s1, e) => mdcLoop fk fv rest s1 e
  | _ :: rest, s, some e => mdcLoop fk fv rest s (some e)

/-- Whole body of `Mdc::serialize`: `serializer.serialize_map(None)?`, the
`log_mdc::iter` loop tracking the first error, then `err?`, then `map.end()`. -/
def mdcSerialize (beginm : σ → σ × Option ε) (fk fv : σ → String → σ × Option ε)
    (endm : σ → σ × Option ε) (pairs : List (String × String)) (s : σ) :
    σ × Option ε :=
  match beginm s with
  | (s1, some e) => (s1, some e)
  | (s1, none) =>
      match mdcLoop fk fv pairs s1 none with
      | (s2, some e) => (s2, some e)
      | (s2, none) => endm s2

end MdcAdapter

/-- State of serde_json's map serializer writing to an infallible in-memory
sink: the bytes emitted so far and whether the next entry is the first. -/
structure JMap where
  buf : List Char
  first : Bool

/-- serde_json `serialize_map(None)`: write the opening brace. Writing to a
`Vec` sink cannot fail, so the error type is `Empty`. -/
def jmapBegin (s : JMap) : JMap × Option Empty :=
  ({ buf := s.buf ++ ['{'], first := true }, none)

/-- serde_json `serialize_key` on a `&str` key: a comma separator unless this
is the first entry, then the key as a JSON string. -/
def jmapKey (s : JMap) (k : String) : JMap × Option Empty :=
  ({ buf := s.buf ++ (if s.first then [] else [',']) ++ jsonStr k, first := false }, none)

/-- serde_json `serialize_value` on a `&str` value: a colon, then the value
as a JSON string. -/
def jmapValue (s : JMap) (v : String) : JMap × Option Empty :=
  ({ buf := s.buf ++ ':' :: jsonStr v, first := s.first }, none)

/-- serde_json `SerializeMap::end`: write the closing brace. -/
def jmapEnd (s : JMap) : JMap × Option Empty :=
  ({ buf := s.buf ++ ['}'], first := s.first }, none)

/-- Bytes produced by `Mdc::serialize` against serde_json writing to an
in-memory sink, for a thread whose diagnostic context holds `pairs` in the
order `log_mdc::iter` yields them. -/
def serializeMdcBytes (pairs : List (String × String)) : List Char :=
  (mdcSerialize jmapBegin jmapKey jmapValue jmapEnd pairs { buf := [], first := true }).1.buf

/-- The `log::LogLevel` enum consumed by the encoder. -/
inductive LogLevel where
  | Error | Warn | Info | Debug | Trace
  deriving DecidableEq, Repr

/-- The `level_str` mapping of `json.rs`. -/
def level_str (level : LogLevel) : String :=
  match level with
  | .Error => "ERROR"
  | .Warn => "WARN"
  | .Info => "INFO"
  | .Debug => "DEBUG"
  | .Trace => "TRACE"

/-- The transient `Message` view struct of `json.rs`. The Rust struct stores
the lazily formatted time and a marker `Mdc` whose data lives in thread-local
storage; here the timestamp fields and the thread's diagnostic-context pairs
are stored explicitly. -/
structure Message where
  time : Tm
  message : String
  module_path : String
  file : String
  line : Nat
  level : String
  target : String
  thread : Option String
  mdc : List (String × String)

/-- serde_json serialization of the derived `Serialize` for `Message`: one
object, fields in declaration order; `time` and `message` written through
`ser_display`/`collect_str`, `line` as a number, `thread` as a string or
`null`, `mdc` through `Mdc::serialize`. -/
def Message.serialize (m : Message) : List Char :=
  '{' :: jsonStr "time" ++ ':' :: jsonStrL (rfc3339Format m.time)
    ++ ',' :: jsonStr "message" ++ ':' :: jsonStr m.message
    ++ ',' :: jsonStr "module_path" ++ ':' :: jsonStr m.module_path
    ++ ',' :: jsonStr "file" ++ ':' :: jsonStr m.file
    ++ ',' :: jsonStr "line" ++ ':' :: decDigits m.line
    ++ ',' :: jsonStr "level" ++ ':' :: jsonStr m.level
    ++ ',' :: jsonStr "target" ++ ':' :: jsonStr m.target
    ++ ',' :: jsonStr "thread"
    ++ ':' :: (match m.thread with
      | some t => jsonStr t
      | none => ['n', 'u', 'l', 'l'])
    ++ ',' :: jsonStr "mdc" ++ ':' :: serializeMdcBytes m.mdc
    ++ ['}']

/-- Modelled from the spec: the `NEWLINE` constant of `encode/mod.rs` (not
part of the provided source), which the spec fixes as a single `\n` byte. -/
def NEWLINE : String := "\n"

/-- The `JsonEncoder::encode_inner` routine: build the `Message` view (with
the current thread's name and, at serialization time, the thread's diagnostic
context), serialize it with serde_json into the sink, then write `NEWLINE`.
The returned list is the full byte sequence written to the sink. -/
def encode_inner (time : Tm) (level : LogLevel) (target module_path file : String)
    (line : Nat) (args : String) (threadName : Option String)
    (mdc : List (String × String)) : List Char :=
  Message.serialize
      { time := time, message := args, module_path := module_path, file := file,
        line := line, level := level_str level, target := target,
        thread := threadName, mdc := mdc }
    ++ NEWLINE.toList

/-- The `JsonEncoderConfig` struct: its only field `_p` carries
`#[serde(skip_deserializing)]`, so no configuration key is deserializable. -/
structure JsonEncoderConfig where
  p : Unit
  deriving DecidableEq, Repr

/-- The `JsonEncoder` unit struct. -/
structure JsonEncoder where
  u : Unit
  deriving DecidableEq, Repr

/-- The `JsonEncoder::new` constructor, the default configuration. -/
def JsonEncoder.new : JsonEncoder :=
  { u := () }

/-- Derived `Deserialize` for `JsonEncoderConfig` under
`#[serde(deny_unknown_fields)]`: the input is the configuration map left
after the framework consumed the `kind` discriminator; since no field is
deserializable, any key at all is an unknown-field error, and an empty map
yields the config with `_p` defaulted. -/
def deserializeConfig (fields : List (String × String)) : Except String JsonEncoderConfig :=
  match fields with
  | [] => Except.ok { p := () }
  | (k, _) :: _ => Except.error ("unknown field `" ++ k ++ "`")

/-- The `JsonEncoderDeserializer::deserialize` pipeline: deserialize the
config, then ignore it and return `JsonEncoder::new()`. -/
def deserializeEncoder (fields : List (String × String)) : Except String JsonEncoder :=
  (deserializeConfig fields).map (fun _ => JsonEncoder.new)

/-- Decimal digit test for the specification-side RFC3339 parser. -/
def isDig (c : Char) : Bool :=
  match c with
  | '0' | '1' | '2' | '3' | '4' | '5' | '6' | '7' | '8' | '9' => true
  | _ => false

/-- Value of a decimal digit character; zero on non-digits. -/
def digVal (c : Char) : Nat :=
  match c with
  | '0' => 0 | '1' => 1 | '2' => 2 | '3' => 3 | '4' => 4
  | '5' => 5 | '6' => 6 | '7' => 7 | '8' => 8 | '9' => 9
  | _ => 0

/-- Consume exactly `k` digit characters, most significant first, onto an
accumulator. -/
def takeDigitsAux : Nat → Nat → List Char → Option (Nat × List Char)
  | 0, acc, s => some (acc, s)
  | _ + 1, _, [] => none
  | k + 1, acc, c :: s =>
      if isDig c then takeDigitsAux k (acc * 10 + digVal c) s else none

/-- Consume one expected literal character. -/
def expectChar (c : Char) : List Char → Option (List Char)
  | [] => none
  | x :: s => if x = c then some s else none

/-- Numeric value of a digit sequence, most significant first. -/
def digitsToNat (l : List Char) : Nat :=
  l.foldl (fun acc c => acc * 10 + digVal c) 0

/-- Parse an optional RFC3339 fractional-second part: either absent, or a dot
followed by one to nine digits, scaled to nanoseconds. -/
def parseFrac (s : List Char) : Option (Nat × List Char) :=
  match s with
  | [] => some (0, [])
  | c :: rest =>
      if c = '.' then
        let ds := rest.takeWhile isDig
        if 1 ≤ ds.length ∧ ds.length ≤ 9 then
          some (digitsToNat ds * 10 ^ (9 - ds.length), rest.dropWhile isDig)
        else none
      else some (0, c :: rest)

/-- Parse an RFC3339 numeric-offset sign. -/
def parseSign (s : List Char) : Option (Bool × List Char) :=
  match s with
  | '-' :: rest => some (true, rest)
  | '+' :: rest => some (false, rest)
  | _ => none

/-- Parse the date part `YYYY-MM-DDT`: year, month, day, and what follows
the `T`. -/
def parseDate (s : List Char) : Option (Nat × Nat × Nat × List Char) :=
  (takeDigitsAux 4 0 s).bind fun py =>
  (expectChar '-' py.2).bind fun s1 =>
  (takeDigitsAux 2 0 s1).bind fun pmo =>
  (expectChar '-' pmo.2).bind fun s2 =>
  (takeDigitsAux 2 0 s2).bind fun pd =>
  (expectChar 'T' pd.2).bind fun s3 =>
  some (py.1, pmo.1, pd.1, s3)

/-- Parse the clock part `HH:MM:SS`: hour, minute, second, and the rest. -/
def parseTimeOfDay (s : List Char) : Option (Nat × Nat × Nat × List Char) :=
  (takeDigitsAux 2 0 s).bind fun phh =>
  (expectChar ':' phh.2).bind fun s1 =>
  (takeDigitsAux 2 0 s1).bind fun pmi =>
  (expectChar ':' pmi.2).bind fun s2 =>
  (takeDigitsAux 2 0 s2).bind fun pse =>
  some (phh.1, pmi.1, pse.1, pse.2)

/-- Parse the numeric offset `±HH:MM`: sign, hours, minutes, and the rest. -/
def parseOffset (s : List Char) : Option (Bool × Nat × Nat × List Char) :=
  (parseSign s).bind fun psg =>
  (takeDigitsAux 2 0 psg.2).bind fun poh =>
  (expectChar ':' poh.2).bind fun s1 =>
  (takeDigitsAux 2 0 s1).bind fun pom =>
  some (psg.1, poh.1, pom.1, pom.2)

/-- An RFC3339 parser over the exact grammar the encoder's `time` field uses:
`YYYY-MM-DDTHH:MM:SS`, optional fraction, numeric offset `±HH:MM`, end of
input. This is the specification side of the timestamp round trip. -/
def rfc3339Parse (s : List Char) : Option Tm :=
  (parseDate s).bind fun pd =>
  (parseTimeOfDay pd.2.2.2).bind fun pt =>
  (parseFrac pt.2.2.2).bind fun pna =>
  (parseOffset pna.2).bind fun po =>
  if po.2.2.2 = [] then
    some ⟨pd.1, pd.2.1, pd.2.2.1, pt.1, pt.2.1, pt.2.2.1, pna.1, po.1, po.2.1, po.2.2.1⟩
  else none

/-- Rendered characters of one diagnostic-context entry inside the `mdc`
object: the key string, a colon, the value string. -/
def mdcEntry (p : String × String) : List Char :=
  jsonStr p.1 ++ ':' :: jsonStr p.2

/-- Specification-side description of the nine fields a successful encode
writes, in order, as (name, JSON value) pairs. -/
def msgFields (time : Tm) (level : LogLevel) (target module_path file : String)
    (line : Nat) (args : String) (threadName : Option String)
    (mdc : List (String × String)) : List (String × Json) :=
  [("time", Json.str ⟨rfc3339Format time⟩),
   ("message", Json.str args),
   ("module_path", Json.str module_path),
   ("file", Json.str file),
   ("line", Json.num line),
   ("level", Json.str (level_str level)),
   ("target", Json.str target),
   ("thread", match threadName with
     | some n => Json.str n
     | none => Json.null),
   ("mdc", Json.obj (mdc.map (fun p => (p.1, Json.str p.2))))]

/-- Map serializer over a call-trace state, recording each operation: used to
exercise the error path of the `Mdc` adapter. `serialize_map` begins. -/
def traceBegin (s : List String) : List String × Option String :=
  (s ++ ["begin"], none)

/-- Trace serializer key write: fails on the key "bad". -/
def traceKey (s : List String) (k : String) : List String × Option String :=
  (s ++ ["key " ++ k], if k = "bad" then some "boom" else none)

/-- Trace serializer value write: always succeeds. -/
def traceVal (s : List String) (v : String) : List String × Option String :=
  (s ++ ["val " ++ v], none)

/-- Trace serializer map end. -/
def traceEnd (s : List String) : List String × Option String :=
  (s ++ ["end"], none)

/-! Digit and padding lemmas. -/

theorem isDig_decChar (n : Nat) : isDig (decChar n) = true := by
  unfold decChar
  split <;> rfl

theorem digVal_decChar {n : Nat} (h : n < 10) : digVal (decChar n) = n := by
  interval_cases n <;> rfl

theorem padDigits_length (k : Nat) : ∀ n, (padDigits k n).length = k := by
  induction k with
  | zero => intro n; rfl
  | succ k ih => intro n; simp [padDigits, ih]

theorem isDig_of_mem_padDigits {k : Nat} :
    ∀ {n : Nat} {c : Char}, c ∈ padDigits k n → isDig c = true := by
  induction k with
  | zero => intro n c hc; simp [padDigits] at hc
  | succ k ih =>
      intro n c hc
      simp only [padDigits, List.mem_append, List.mem_singleton] at hc
      rcases hc with hc | hc
      · exact ih hc
      · rw [hc]; exact isDig_decChar _

theorem takeDigitsAux_pad_general (k : Nat) :
    ∀ (j acc n : Nat) (rest : List Char), n < 10 ^ k →
      takeDigitsAux (j + k) acc (padDigits k n ++ rest) =
        takeDigitsAux j (acc * 10 ^ k + n) rest := by
  induction k with
  | zero =>
      intro j acc n rest h
      interval_cases n
      simp [padDigits]
  | succ k ih =>
      intro j acc n rest h
      have hdiv : n / 10 < 10 ^ k := by
        rw [Nat.div_lt_iff_lt_mul (by norm_num)]
        calc n < 10 ^ (k + 1) := h
          _ = 10 ^ k * 10 := by rw [pow_succ]
      have hstep : j + (k + 1) = (j + 1) + k := by omega
      rw [padDigits, List.append_assoc, List.singleton_append, hstep,
        ih (j + 1) acc (n / 10) (decChar (n % 10) :: rest) hdiv]
      have hmod : n % 10 < 10 := Nat.mod_lt _ (by norm_num)
      simp only [takeDigitsAux, isDig_decChar, if_true, digVal_decChar hmod]
      congr 1
      have h1 : n / 10 * 10 + n % 10 = n := by omega
      calc (acc * 10 ^ k + n / 10) * 10 + n % 10
          = acc * (10 ^ k * 10) + (n / 10 * 10 + n % 10) := by ring
        _ = acc * 10 ^ (k + 1) + n := by rw [h1, ← pow_succ]

theorem takeDigitsAux_pad {k n : Nat} {rest : List Char} (h : n < 10 ^ k) :
    takeDigitsAux k 0 (padDigits k n ++ rest) = some (n, rest) := by
  have := takeDigitsAux_pad_general k 0 0 n rest h
  simpa [takeDigitsAux] using this

theorem foldl_digits_pad (k : Nat) :
    ∀ (acc n : Nat), n < 10 ^ k →
      List.foldl (fun acc c => acc * 10 + digVal c) acc (padDigits k n) =
        acc * 10 ^ k + n := by
  induction k with
  | zero =>
      intro acc n h
      interval_cases n
      simp [padDigits]
  | succ k ih =>
      intro acc n h
      have hdiv : n / 10 < 10 ^ k := by
        rw [Nat.div_lt_iff_lt_mul (by norm_num)]
        calc n < 10 ^ (k + 1) := h
          _ = 10 ^ k * 10 := by rw [pow_succ]
      have hmod : n % 10 < 10 := Nat.mod_lt _ (by norm_num)
      rw [padDigits, List.foldl_append, ih acc (n / 10) hdiv]
      simp only [List.foldl_cons, List.foldl_nil, digVal_decChar hmod]
      have h1 : n / 10 * 10 + n % 10 = n := by omega
      calc (acc * 10 ^ k + n / 10) * 10 + n % 10
          = acc * (10 ^ k * 10) + (n / 10 * 10 + n % 10) := by ring
        _ = acc * 10 ^ (k + 1) + n := by rw [h1, ← pow_succ]

theorem digitsToNat_pad {k n : Nat} (h : n < 10 ^ k) :
    digitsToNat (padDigits k n) = n := by
  have := foldl_digits_pad k 0 n h
  simpa [digitsToNat] using this

theorem takeWhile_digits_cons {x : Char} (hx : isDig x = false) :
    ∀ (l : List Char), (∀ c ∈ l, isDig c = true) → ∀ (t : List Char),
      List.takeWhile isDig (l ++ x :: t) = l ∧
        List.dropWhile isDig (l ++ x :: t) = x :: t := by
  intro l
  induction l with
  | nil =>
      intro _ t
      simp [List.takeWhile, List.dropWhile, hx]
  | cons c cs ih =>
      intro hall t
      have hc : isDig c = true := hall c (by simp)
      have hrest := ih (fun d hd => hall d (by simp [hd])) t
      simp [List.takeWhile, List.dropWhile, hc, hrest.1, hrest.2]

theorem parseFrac_frac {n : Nat} (hn : n < 10 ^ 9) {x : Char} {t : List Char}
    (hx : isDig x = false) (hdot : x ≠ '.') :
    parseFrac (fracDigits n ++ x :: t) = some (n, x :: t) := by
  unfold fracDigits
  split_ifs with h0 h6 h3
  · subst h0
    simp [parseFrac, hdot]
  · have hm : n / 1000000 < 10 ^ 3 := by omega
    have htw := takeWhile_digits_cons hx (padDigits 3 (n / 1000000))
      (fun c hc => isDig_of_mem_padDigits hc) t
    simp only [parseFrac, List.cons_append, if_pos rfl, htw.1, htw.2,
      padDigits_length, digitsToNat_pad hm]
    rw [if_pos (by norm_num : (1:Nat) ≤ 3 ∧ (3:Nat) ≤ 9)]
    have : n / 1000000 * 10 ^ (9 - 3) = n := by
      have := Nat.div_mul_cancel (Nat.dvd_of_mod_eq_zero h6)
      simpa using this
    rw [this]
    simp
  · have hm : n / 1000 < 10 ^ 6 := by omega
    have htw := takeWhile_digits_cons hx (padDigits 6 (n / 1000))
      (fun c hc => isDig_of_mem_padDigits hc) t
    simp only [parseFrac, List.cons_append, if_pos rfl, htw.1, htw.2,
      padDigits_length, digitsToNat_pad hm]
    rw [if_pos (by norm_num : (1:Nat) ≤ 6 ∧ (6:Nat) ≤ 9)]
    have : n / 1000 * 10 ^ (9 - 6) = n := by
      have := Nat.div_mul_cancel (Nat.dvd_of_mod_eq_zero h3)
      simpa using this
    rw [this]
    simp
  · have htw := takeWhile_digits_cons hx (padDigits 9 n)
      (fun c hc => isDig_of_mem_padDigits hc) t
    simp only [parseFrac, List.cons_append, if_pos rfl, htw.1, htw.2,
      padDigits_length, digitsToNat_pad hn]
    rw [if_pos (by norm_num : (1:Nat) ≤ 9 ∧ (9:Nat) ≤ 9)]
    simp

theorem expectChar_cons (c : Char) (s : List Char) : expectChar c (c :: s) = some s := by
  simp [expectChar]

theorem signChar_not_dig (b : Bool) : isDig (if b = true then '-' else '+') = false := by
  cases b <;> decide

theorem signChar_ne_dot (b : Bool) : (if b = true then '-' else '+') ≠ '.' := by
  cases b <;> decide

theorem parseSign_signChar (b : Bool) (s : List Char) :
    parseSign ((if b = true then '-' else '+') :: s) = some (b, s) := by
  cases b <;> rfl

theorem parseDate_pad {y mo d : Nat} {rest : List Char}
    (hy : y < 10 ^ 4) (hmo : mo < 10 ^ 2) (hd : d < 10 ^ 2) :
    parseDate (padDigits 4 y ++ '-' ::
        (padDigits 2 mo ++ '-' :: (padDigits 2 d ++ 'T' :: rest))) =
      some (y, mo, d, rest) := by
  unfold parseDate
  rw [takeDigitsAux_pad hy]
  simp only [Option.some_bind]
  rw [expectChar_cons]
  simp only [Option.some_bind]
  rw [takeDigitsAux_pad hmo]
  simp only [Option.some_bind]
  rw [expectChar_cons]
  simp only [Option.some_bind]
  rw [takeDigitsAux_pad hd]
  simp only [Option.some_bind]
  rw [expectChar_cons]
  simp only [Option.some_bind]

theorem parseTimeOfDay_pad {hh mi se : Nat} {rest : List Char}
    (h1 : hh < 10 ^ 2) (h2 : mi < 10 ^ 2) (h3 : se < 10 ^ 2) :
    parseTimeOfDay (padDigits 2 hh ++ ':' ::
        (padDigits 2 mi ++ ':' :: (padDigits 2 se ++ rest))) =
      some (hh, mi, se, rest) := by
  unfold parseTimeOfDay
  rw [takeDigitsAux_pad h1]
  simp only [Option.some_bind]
  rw [expectChar_cons]
  simp only [Option.some_bind]
  rw [takeDigitsAux_pad h2]
  simp only [Option.some_bind]
  rw [expectChar_cons]
  simp only [Option.some_bind]
  rw [takeDigitsAux_pad h3]
  simp only [Option.some_bind]

theorem parseOffset_pad {b : Bool} {oh om : Nat}
    (h1 : oh < 10 ^ 2) (h2 : om < 10 ^ 2) :
    parseOffset ((if b = true then '-' else '+') ::
        (padDigits 2 oh ++ ':' :: padDigits 2 om)) =
      some (b, oh, om, []) := by
  unfold parseOffset
  rw [parseSign_signChar]
  simp only [Option.some_bind]
  rw [takeDigitsAux_pad h1]
  simp only [Option.some_bind]
  rw [expectChar_cons]
  simp only [Option.some_bind]
  rw [show padDigits 2 om = padDigits 2 om ++ [] from (List.append_nil _).symm,
    takeDigitsAux_pad h2]
  simp only [Option.some_bind]

theorem rfc3339Parse_format {t : Tm} (h : ValidTm t) :
    rfc3339Parse (rfc3339Format t) = some t := by
  obtain ⟨y, mo, d, hh, mi, se, na, neg, oh, om⟩ := t
  simp only [ValidTm] at h
  obtain ⟨h1, h2, h3, h4, h5, h6, h7, h8, h9, h10, h11⟩ := h
  have hy : y < 10 ^ 4 := by omega
  have hmo : mo < 10 ^ 2 := by omega
  have hd : d < 10 ^ 2 := by omega
  have hhh : hh < 10 ^ 2 := by omega
  have hmi : mi < 10 ^ 2 := by omega
  have hse : se < 10 ^ 2 := by omega
  have hna : na < 10 ^ 9 := by omega
  have hoh : oh < 10 ^ 2 := by omega
  have hom : om < 10 ^ 2 := by omega
  simp only [rfc3339Format, List.append_assoc, List.cons_append, List.singleton_append,
    List.nil_append]
  unfold rfc3339Parse
  rw [parseDate_pad hy hmo hd]
  simp only [Option.some_bind]
  rw [parseTimeOfDay_pad hhh hmi hse]
  simp only [Option.some_bind]
  rw [parseFrac_frac hna (signChar_not_dig neg) (signChar_ne_dot neg)]
  simp only [Option.some_bind]
  rw [parseOffset_pad hoh hom]
  simp only [Option.some_bind]
  simp

/-! Lemmas about the `Mdc` adapter loop. -/

theorem mdcLoop_error {σ ε : Type} (fk fv : σ → String → σ × Option ε)
    (l : List (String × String)) (s : σ) (e : ε) :
    mdcLoop fk fv l s (some e) = (s, some e) := by
  induction l with
  | nil => rfl
  | cons kv rest ih => simp only [mdcLoop, ih]

theorem mdcLoop_append_ok {σ ε : Type} (fk fv : σ → String → σ × Option ε)
    {pre : List (String × String)} {s s2 : σ}
    (h : mdcLoop fk fv pre s none = (s2, none)) (rest : List (String × String)) :
    mdcLoop fk fv (pre ++ rest) s none = mdcLoop fk fv rest s2 none := by
  induction pre generalizing s with
  | nil =>
      simp only [mdcLoop, Prod.mk.injEq] at h
      rw [List.nil_append, h.1]
  | cons kv pre ih =>
      rw [List.cons_append]
      simp only [mdcLoop] at h ⊢
      rcases hstep : mdcStep fk fv s kv with ⟨s1, e⟩
      rw [hstep] at h
      dsimp only at h ⊢
      cases e with
      | none => exact ih h
      | some e0 =>
          rw [mdcLoop_error] at h
          simp at h

theorem mdcLoop_jmap_notfirst (pairs : List (String × String)) :
    ∀ b : List Char,
      mdcLoop jmapKey jmapValue pairs ⟨b, false⟩ none =
        (⟨b ++ (pairs.map (fun p => ',' :: mdcEntry p)).flatten, false⟩, none) := by
  induction pairs with
  | nil => intro b; simp [mdcLoop]
  | cons p rest ih =>
      intro b
      simp only [mdcLoop, mdcStep, jmapKey, jmapValue, Bool.false_eq_true, if_false, ih,
        List.map_cons, List.flatten_cons, mdcEntry]
      simp [List.append_assoc]

theorem renderFields_strEntries (p : String × String) (rest : List (String × String)) :
    Json.renderFields ((p :: rest).map fun q => (q.1, Json.str q.2)) =
      mdcEntry p ++ (rest.map fun q => ',' :: mdcEntry q).flatten := by
  induction rest generalizing p with
  | nil => simp [Json.renderFields, Json.render, mdcEntry]
  | cons q rest ih =>
      simp only [List.map_cons] at ih ⊢
      rw [Json.renderFields]
      · rw [ih q]
        simp [Json.render, mdcEntry, List.append_assoc]
      · simp

theorem serializeMdcBytes_eq_render (pairs : List (String × String)) :
    serializeMdcBytes pairs =
      Json.render (Json.obj (pairs.map fun p => (p.1, Json.str p.2))) := by
  cases pairs with
  | nil => rfl
  | cons p rest =>
      unfold serializeMdcBytes mdcSerialize
      simp only [jmapBegin, mdcLoop, mdcStep, jmapKey, jmapValue, if_true]
      rw [mdcLoop_jmap_notfirst]
      simp only [jmapEnd, Json.render]
      rw [renderFields_strEntries]
      simp [mdcEntry, List.append_assoc]

theorem jsonStr_mk (l : List Char) : jsonStr (String.mk l) = jsonStrL l := rfl

theorem encode_inner_eq_render (time : Tm) (level : LogLevel)
    (target module_path file : String) (line : Nat) (args : String)
    (threadName : Option String) (mdc : List (String × String)) :
    encode_inner time level target module_path file line args threadName mdc =
      Json.render (Json.obj (msgFields time level target module_path file line args
        threadName mdc)) ++ NEWLINE.toList := by
  unfold encode_inner Message.serialize msgFields
  rw [serializeMdcBytes_eq_render]
  cases threadName with
  | none =>
      simp [Json.render, Json.renderFields, jsonStr_mk, List.append_assoc]
  | some n =>
      simp [Json.render, Json.renderFields, jsonStr_mk, List.append_assoc]

/-! Characters of an RFC3339 timestamp need no JSON escaping. -/

theorem escapeChar_decChar (n : Nat) : escapeChar (decChar n) = [decChar n] := by
  unfold decChar
  split <;> decide

theorem allNeutral_append {l1 l2 : List Char}
    (h1 : ∀ c ∈ l1, escapeChar c = [c]) (h2 : ∀ c ∈ l2, escapeChar c = [c]) :
    ∀ c ∈ l1 ++ l2, escapeChar c = [c] := by
  intro c hc
  rcases List.mem_append.mp hc with h | h
  · exact h1 c h
  · exact h2 c h

theorem allNeutral_pad {k n : Nat} : ∀ c ∈ padDigits k n, escapeChar c = [c] := by
  induction k generalizing n with
  | zero => intro c hc; simp [padDigits] at hc
  | succ k ih =>
      intro c hc
      simp only [padDigits, List.mem_append, List.mem_singleton] at hc
      rcases hc with hc | hc
      · exact ih c hc
      · rw [hc]; exact escapeChar_decChar _

theorem allNeutral_frac {n : Nat} : ∀ c ∈ fracDigits n, escapeChar c = [c] := by
  intro c hc
  unfold fracDigits at hc
  split_ifs at hc
  · simp at hc
  · rcases List.mem_cons.mp hc with rfl | hc
    · decide
    · exact allNeutral_pad c hc
  · rcases List.mem_cons.mp hc with rfl | hc
    · decide
    · exact allNeutral_pad c hc
  · rcases List.mem_cons.mp hc with rfl | hc
    · decide
    · exact allNeutral_pad c hc

theorem allNeutral_sign (b : Bool) :
    ∀ c ∈ [if b = true then '-' else '+'], escapeChar c = [c] := by
  cases b <;> decide

theorem escapeList_eq_self {l : List Char} (h : ∀ c ∈ l, escapeChar c = [c]) :
    escapeList l = l := by
  induction l with
  | nil => rfl
  | cons c rest ih =>
      rw [escapeList, h c (by simp), ih (fun d hd => h d (by simp [hd]))]
      rfl

theorem escapeList_format (t : Tm) : escapeList (rfc3339Format t) = rfc3339Format t := by
  apply escapeList_eq_self
  simp only [rfc3339Format]
  exact allNeutral_append (allNeutral_append (allNeutral_append (allNeutral_append (allNeutral_append (allNeutral_append (allNeutral_append (allNeutral_append (allNeutral_append (allNeutral_append (allNeutral_append (allNeutral_append (allNeutral_append (allNeutral_append (allNeutral_append (allNeutral_pad)
    ((by decide : ∀ c ∈ ['-'], escapeChar c = [c])))
    (allNeutral_pad))
    ((by decide : ∀ c ∈ ['-'], escapeChar c = [c])))
    (allNeutral_pad))
    ((by decide : ∀ c ∈ ['T'], escapeChar c = [c])))
    (allNeutral_pad))
    ((by decide : ∀ c ∈ [':'], escapeChar c = [c])))
    (allNeutral_pad))
    ((by decide : ∀ c ∈ [':'], escapeChar c = [c])))
    (allNeutral_pad))
    (allNeutral_frac))
    ((allNeutral_sign t.offNeg)))
    (allNeutral_pad))
    ((by decide : ∀ c ∈ [':'], escapeChar c = [c])))
    (allNeutral_pad)

/-! The serialized output contains no raw newline before the final one. -/

theorem hexChar_ne_nl (n : Nat) : hexChar n ≠ '\n' := by
  unfold hexChar
  split <;> decide

theorem decChar_ne_nl (n : Nat) : decChar n ≠ '\n' := by
  unfold decChar
  split <;> decide

theorem noNL_escapeChar (c : Char) : '\n' ∉ escapeChar c := by
  unfold escapeChar
  split_ifs with h1 h2 h3 h4 h5 h6 h7 h8
  · decide
  · decide
  · decide
  · decide
  · decide
  · decide
  · decide
  · intro hm
    simp only [List.mem_cons, List.not_mem_nil, or_false] at hm
    rcases hm with h | h | h | h | h | h
    · exact absurd h (by decide)
    · exact absurd h (by decide)
    · exact absurd h (by decide)
    · exact absurd h (by decide)
    · exact hexChar_ne_nl _ h.symm
    · exact hexChar_ne_nl _ h.symm
  · intro hm
    simp only [List.mem_singleton] at hm
    apply h5
    rw [← hm]
    rfl

theorem noNL_escapeList (l : List Char) : '\n' ∉ escapeList l := by
  induction l with
  | nil => simp [escapeList]
  | cons c rest ih =>
      rw [escapeList]
      intro hm
      rcases List.mem_append.mp hm with h | h
      · exact noNL_escapeChar c h
      · exact ih h

theorem noNL_jsonStrL (l : List Char) : '\n' ∉ jsonStrL l := by
  unfold jsonStrL
  intro hm
  rcases List.mem_cons.mp hm with h | h
  · exact absurd h (by decide)
  · rcases List.mem_append.mp h with h | h
    · exact noNL_escapeList _ h
    · simp only [List.mem_singleton] at h
      exact absurd h (by decide)

theorem noNL_jsonStr (s : String) : '\n' ∉ jsonStr s :=
  noNL_jsonStrL _

theorem noNL_decDigitsAux (fuel : Nat) : ∀ n, '\n' ∉ decDigitsAux fuel n := by
  induction fuel with
  | zero => intro n; simp [decDigitsAux]
  | succ fuel ih =>
      intro n
      rw [decDigitsAux]
      split_ifs with h
      · intro hm
        simp only [List.mem_singleton] at hm
        exact decChar_ne_nl n hm.symm
      · intro hm
        rcases List.mem_append.mp hm with hmm | hmm
        · exact ih (n / 10) hmm
        · simp only [List.mem_singleton] at hmm
          exact decChar_ne_nl _ hmm.symm

theorem noNL_decDigits (n : Nat) : '\n' ∉ decDigits n :=
  noNL_decDigitsAux (n + 1) n

theorem noNL_mdcEntry (p : String × String) : '\n' ∉ mdcEntry p := by
  unfold mdcEntry
  intro hm
  rcases List.mem_append.mp hm with h | h
  · exact noNL_jsonStr _ h
  · rcases List.mem_cons.mp h with h | h
    · exact absurd h (by decide)
    · exact noNL_jsonStr _ h

theorem noNL_renderStrFields (pairs : List (String × String)) :
    '\n' ∉ Json.renderFields (pairs.map fun p => (p.1, Json.str p.2)) := by
  cases pairs with
  | nil => simp [Json.renderFields]
  | cons p rest =>
      rw [renderFields_strEntries]
      intro hm
      rcases List.mem_append.mp hm with h | h
      · exact noNL_mdcEntry p h
      · rcases List.mem_flatten.mp h with ⟨l, hl, hcl⟩
        rcases List.mem_map.mp hl with ⟨q, _, rfl⟩
        rcases List.mem_cons.mp hcl with h | h
        · exact absurd h (by decide)
        · exact noNL_mdcEntry q h

theorem noNL_append {l1 l2 : List Char} (h1 : '\n' ∉ l1) (h2 : '\n' ∉ l2) :
    '\n' ∉ l1 ++ l2 := by
  intro hm
  rcases List.mem_append.mp hm with h | h
  · exact h1 h
  · exact h2 h

theorem noNL_cons {c : Char} {l : List Char} (h1 : '\n' ≠ c) (h2 : '\n' ∉ l) :
    '\n' ∉ c :: l := by
  intro hm
  rcases List.mem_cons.mp hm with h | h
  · exact h1 h
  · exact h2 h

theorem noNL_serializeMdcBytes (pairs : List (String × String)) :
    '\n' ∉ serializeMdcBytes pairs := by
  rw [serializeMdcBytes_eq_render, Json.render]
  refine noNL_cons (by decide) (noNL_append (noNL_renderStrFields pairs) (by decide))

theorem noNL_messageSerialize (m : Message) : '\n' ∉ m.serialize := by
  rcases m with ⟨time, message, module_path, file, line, level, target, thread, mdc⟩
  cases thread with
  | none =>
      unfold Message.serialize
      dsimp only
      exact noNL_append (noNL_append (noNL_append (noNL_append (noNL_append (noNL_append (noNL_append (noNL_append (noNL_append (noNL_append (noNL_append (noNL_append (noNL_append (noNL_append (noNL_append (noNL_append (noNL_append (noNL_append (noNL_cons (by decide) (noNL_jsonStr _))
        (noNL_cons (by decide) (noNL_jsonStrL _)))
        (noNL_cons (by decide) (noNL_jsonStr _)))
        (noNL_cons (by decide) (noNL_jsonStr _)))
        (noNL_cons (by decide) (noNL_jsonStr _)))
        (noNL_cons (by decide) (noNL_jsonStr _)))
        (noNL_cons (by decide) (noNL_jsonStr _)))
        (noNL_cons (by decide) (noNL_jsonStr _)))
        (noNL_cons (by decide) (noNL_jsonStr _)))
        (noNL_cons (by decide) (noNL_decDigits _)))
        (noNL_cons (by decide) (noNL_jsonStr _)))
        (noNL_cons (by decide) (noNL_jsonStr _)))
        (noNL_cons (by decide) (noNL_jsonStr _)))
        (noNL_cons (by decide) (noNL_jsonStr _)))
        (noNL_cons (by decide) (noNL_jsonStr _)))
        (noNL_cons (by decide) (by decide)))
        (noNL_cons (by decide) (noNL_jsonStr _)))
        (noNL_cons (by decide) (noNL_serializeMdcBytes _)))
        ((by decide))
  | some nm =>
      unfold Message.serialize
      dsimp only
      exact noNL_append (noNL_append (noNL_append (noNL_append (noNL_append (noNL_append (noNL_append (noNL_append (noNL_append (noNL_append (noNL_append (noNL_append (noNL_append (noNL_append (noNL_append (noNL_append (noNL_append (noNL_append (noNL_cons (by decide) (noNL_jsonStr _))
        (noNL_cons (by decide) (noNL_jsonStrL _)))
        (noNL_cons (by decide) (noNL_jsonStr _)))
        (noNL_cons (by decide) (noNL_jsonStr _)))
        (noNL_cons (by decide) (noNL_jsonStr _)))
        (noNL_cons (by decide) (noNL_jsonStr _)))
        (noNL_cons (by decide) (noNL_jsonStr _)))
        (noNL_cons (by decide) (noNL_jsonStr _)))
        (noNL_cons (by decide) (noNL_jsonStr _)))
        (noNL_cons (by decide) (noNL_decDigits _)))
        (noNL_cons (by decide) (noNL_jsonStr _)))
        (noNL_cons (by decide) (noNL_jsonStr _)))
        (noNL_cons (by decide) (noNL_jsonStr _)))
        (noNL_cons (by decide) (noNL_jsonStr _)))
        (noNL_cons (by decide) (noNL_jsonStr _)))
        (noNL_cons (by decide) (noNL_jsonStr _)))
        (noNL_cons (by decide) (noNL_jsonStr _)))
        (noNL_cons (by decide) (noNL_serializeMdcBytes _)))
        ((by decide))

/-! Claim theorems. -/

/-- C1: during serialization of the `mdc` field, if writing some
diagnostic-context key or value returns an error, the first such error is
recorded; once recorded, no `serialize_key` or `serialize_value` call is made
for any later pair (the final state is exactly the state after the failing
call, for every suffix `post`, while the iteration itself still structurally
traverses all pairs); and after the iteration the recorded error is the
result of the whole `Mdc::serialize` call — `map.end()` never runs, so the
error is not silently dropped. -/
theorem mdc_first_error_propagated {σ ε : Type}
    (beginm : σ → σ × Option ε) (fk fv : σ → String → σ × Option ε)
    (endm : σ → σ × Option ε) (pre post : List (String × String))
    (kv : String × String) (s0 s1 s2 s3 : σ) (e : ε)
    (hbegin : beginm s0 = (s1, none))
    (hpre : mdcLoop fk fv pre s1 none = (s2, none))
    (hfail : mdcStep fk fv s2 kv = (s3, some e)) :
    mdcSerialize beginm fk fv endm (pre ++ kv :: post) s0 = (s3, some e) := by
  unfold mdcSerialize
  rw [hbegin]
  dsimp only
  rw [mdcLoop_append_ok fk fv hpre (kv :: post)]
  simp only [mdcLoop]
  rw [hfail]
  dsimp only
  rw [mdcLoop_error]

/-- Witness for C1: a trace serializer whose key write fails on "bad". The
trace of the run shows the begin call, the first pair's key and value, the
failing key — and nothing for the pair after the failure, no map end. -/
theorem mdc_first_error_propagated_witness :
    mdcSerialize traceBegin traceKey traceVal traceEnd
        ([("a", "1")] ++ ("bad", "2") :: [("c", "3")]) [] =
      (["begin", "key a", "val 1", "key bad"], some "boom") :=
  mdc_first_error_propagated traceBegin traceKey traceVal traceEnd
    [("a", "1")] [("c", "3")] ("bad", "2") [] ["begin"]
    ["begin", "key a", "val 1"] ["begin", "key a", "val 1", "key bad"] "boom"
    (by decide) (by decide) (by decide)

/-- C2: a successful encode writes exactly one JSON object with exactly the
nine fields time, message, module_path, file, line, level, target, thread,
mdc, in that order; `line` is a JSON number, `level` one of the five fixed
strings, `mdc` a JSON object, `thread` a string or null, and the remaining
fields JSON strings. -/
theorem encode_fields_exact (time : Tm) (level : LogLevel)
    (target module_path file : String) (line : Nat) (args : String)
    (threadName : Option String) (mdc : List (String × String)) :
    encode_inner time level target module_path file line args threadName mdc =
      Json.render (Json.obj
        [("time", Json.str ⟨rfc3339Format time⟩),
         ("message", Json.str args),
         ("module_path", Json.str module_path),
         ("file", Json.str file),
         ("line", Json.num line),
         ("level", Json.str (level_str level)),
         ("target", Json.str target),
         ("thread", match threadName with
           | some n => Json.str n
           | none => Json.null),
         ("mdc", Json.obj (mdc.map fun p => (p.1, Json.str p.2)))]) ++ ['\n'] ∧
      (level_str level = "ERROR" ∨ level_str level = "WARN" ∨
        level_str level = "INFO" ∨ level_str level = "DEBUG" ∨
        level_str level = "TRACE") := by
  constructor
  · exact encode_inner_eq_render time level target module_path file line args threadName mdc
  · cases level
    · exact Or.inl rfl
    · exact Or.inr (Or.inl rfl)
    · exact Or.inr (Or.inr (Or.inl rfl))
    · exact Or.inr (Or.inr (Or.inr (Or.inl rfl)))
    · exact Or.inr (Or.inr (Or.inr (Or.inr rfl)))

set_option maxRecDepth 10000 in
/-- C3: on the fixed literal inputs of the repository's own test (time
2016-03-20T14:22:20.644420340-08:00, level DEBUG, target "target", module
path "module_path", file "file", line 100, message "message", thread
"worker-1", diagnostic context containing foo ↦ bar), encode produces
exactly the expected JSON line followed by one newline. -/
theorem encode_literal_scenario :
    encode_inner ⟨2016, 3, 20, 14, 22, 20, 644420340, true, 8, 0⟩ LogLevel.Debug
        "target" "module_path" "file" 100 "message" (some "worker-1")
        [("foo", "bar")] =
      ("\x7b\"time\":\"2016-03-20T14:22:20.644420340-08:00\",\"message\":\"message\",\"module_path\":\"module_path\",\"file\":\"file\",\"line\":100,\"level\":\"DEBUG\",\"target\":\"target\",\"thread\":\"worker-1\",\"mdc\":\x7b\"foo\":\"bar\"\x7d\x7d\n").toList := by
  decide

/-- C4: the `mdc` field of a successful encode is rendered through the serde
map serializer as a JSON object with exactly one entry per diagnostic-context
pair, keys and string values as given and in the order the store yields them;
the empty context yields the empty object. -/
theorem mdc_faithful :
    (∀ pairs : List (String × String),
        serializeMdcBytes pairs =
          Json.render (Json.obj (pairs.map fun p => (p.1, Json.str p.2)))) ∧
      serializeMdcBytes [] = ['{', '}'] :=
  ⟨serializeMdcBytes_eq_render, rfl⟩

/-- C5: the output of a successful encode ends with exactly one newline byte,
nothing follows it, and no other unescaped newline byte occurs anywhere in
the output. -/
theorem encode_newline_terminated (time : Tm) (level : LogLevel)
    (target module_path file : String) (line : Nat) (args : String)
    (threadName : Option String) (mdc : List (String × String)) :
    ∃ front,
      encode_inner time level target module_path file line args threadName mdc =
        front ++ ['\n'] ∧ '\n' ∉ front := by
  refine ⟨Message.serialize
    { time := time, message := args, module_path := module_path, file := file,
      line := line, level := level_str level, target := target,
      thread := threadName, mdc := mdc }, rfl, ?_⟩
  exact noNL_messageSerialize _

/-- C6: the `thread` field is always present: it is serialized as a JSON
string equal to the thread's name when the thread is named, and as the
explicit JSON value null when it is not — the key is never omitted. -/
theorem encode_thread_field (time : Tm) (level : LogLevel)
    (target module_path file : String) (line : Nat) (args : String)
    (threadName : Option String) (mdc : List (String × String)) :
    encode_inner time level target module_path file line args threadName mdc =
      Json.render (Json.obj (msgFields time level target module_path file line
        args threadName mdc)) ++ ['\n'] ∧
    List.lookup "thread"
        (msgFields time level target module_path file line args threadName mdc) =
      some (match threadName with
        | some n => Json.str n
        | none => Json.null) :=
  ⟨encode_inner_eq_render time level target module_path file line args threadName mdc,
    rfl⟩

/-- C7: for every valid instant, the JSON-escaped characters written as the
time field are exactly the RFC3339 rendering (no character needs escaping),
and parsing that rendering with an RFC3339 parser recovers the instant
exactly, including full sub-second precision. -/
theorem time_field_roundtrip (t : Tm) (h : ValidTm t) :
    escapeList (rfc3339Format t) = rfc3339Format t ∧
      rfc3339Parse (rfc3339Format t) = some t :=
  ⟨escapeList_format t, rfc3339Parse_format h⟩

/-- Witness for C7 at the repository test's timestamp. -/
theorem time_field_roundtrip_witness :
    ValidTm ⟨2016, 3, 20, 14, 22, 20, 644420340, true, 8, 0⟩ ∧
      (escapeList (rfc3339Format ⟨2016, 3, 20, 14, 22, 20, 644420340, true, 8, 0⟩) =
          rfc3339Format ⟨2016, 3, 20, 14, 22, 20, 644420340, true, 8, 0⟩ ∧
        rfc3339Parse (rfc3339Format ⟨2016, 3, 20, 14, 22, 20, 644420340, true, 8, 0⟩) =
          some ⟨2016, 3, 20, 14, 22, 20, 644420340, true, 8, 0⟩) :=
  ⟨by decide, time_field_roundtrip _ (by decide)⟩

/-- C8: `level_str` maps the five log levels exactly to the five fixed
uppercase strings, and no other string ever appears as a level value. -/
theorem level_str_mapping :
    (level_str LogLevel.Error = "ERROR" ∧ level_str LogLevel.Warn = "WARN" ∧
      level_str LogLevel.Info = "INFO" ∧ level_str LogLevel.Debug = "DEBUG" ∧
      level_str LogLevel.Trace = "TRACE") ∧
    ∀ l : LogLevel,
      level_str l = "ERROR" ∨ level_str l = "WARN" ∨ level_str l = "INFO" ∨
        level_str l = "DEBUG" ∨ level_str l = "TRACE" := by
  refine ⟨⟨rfl, rfl, rfl, rfl, rfl⟩, ?_⟩
  intro l
  cases l
  · exact Or.inl rfl
  · exact Or.inr (Or.inl rfl)
  · exact Or.inr (Or.inr (Or.inl rfl))
  · exact Or.inr (Or.inr (Or.inr (Or.inl rfl)))
  · exact Or.inr (Or.inr (Or.inr (Or.inr rfl)))

/-- C9: the declarative configuration accepts no options: an empty
configuration map deserializes to the default `JsonEncoder`, and any
remaining field at all (the kind discriminator having been consumed by the
framework) is an unknown-field error. -/
theorem config_rejects_fields :
    (deserializeConfig [] = Except.ok { p := () } ∧
      deserializeEncoder [] = Except.ok JsonEncoder.new) ∧
    ∀ (k v : String) (rest : List (String × String)),
      deserializeConfig ((k, v) :: rest) =
          Except.error ("unknown field `" ++ k ++ "`") ∧
        deserializeEncoder ((k, v) :: rest) =
          Except.error ("unknown field `" ++ k ++ "`") := by
  refine ⟨⟨rfl, rfl⟩, ?_⟩
  intro k v rest
  exact ⟨rfl, rfl⟩

/-- C10: encoding is deterministic in its inputs: two `encode_inner` calls
with identical time, level, target, module path, file, line and message, on
threads with the same name and identical diagnostic-context contents, write
identical byte sequences. -/
theorem encode_deterministic (t1 t2 : Tm) (l1 l2 : LogLevel)
    (tg1 tg2 mp1 mp2 f1 f2 : String) (ln1 ln2 : Nat) (a1 a2 : String)
    (th1 th2 : Option String) (m1 m2 : List (String × String))
    (ht : t1 = t2) (hl : l1 = l2) (htg : tg1 = tg2) (hmp : mp1 = mp2)
    (hf : f1 = f2) (hln : ln1 = ln2) (ha : a1 = a2) (hth : th1 = th2)
    (hm : m1 = m2) :
    encode_inner t1 l1 tg1 mp1 f1 ln1 a1 th1 m1 =
      encode_inner t2 l2 tg2 mp2 f2 ln2 a2 th2 m2 := by
  subst ht hl htg hmp hf hln ha hth hm
  rfl

/-- Witness for C10 at the repository test's inputs. -/
theorem encode_deterministic_witness :
    encode_inner ⟨2016, 3, 20, 14, 22, 20, 644420340, true, 8, 0⟩ LogLevel.Debug
        "target" "module_path" "file" 100 "message" (some "worker-1")
        [("foo", "bar")] =
      encode_inner ⟨2016, 3, 20, 14, 22, 20, 644420340, true, 8, 0⟩ LogLevel.Debug
        "target" "module_path" "file" 100 "message" (some "worker-1")
        [("foo", "bar")] :=
  encode_deterministic _ _ _ _ _ _ _ _ _ _ _ _ _ _ _ _ _ _
    rfl rfl rfl rfl rfl rfl rfl rfl rfl

end JsonEncoderModel
